import Mathlib

/-!
Verification of the bomberman chain-explosion program (src/src/bomberman/mod.rs
and src/src/main.rs) via a shallow embedding.

Conventions of the embedding:
* A board cell is a `String` token, the board (`tablero`) a `List (List String)`
  indexed `tablero[y][x]` exactly as in the source.
* Rust `usize` is modelled as `Nat`; the explicit `wrapping_sub(1)` of the
  source is modelled modulo `2 ^ 64` (`wrapping_sub1`).
* Rust `Result<A, String>` plus the possibility of a runtime panic
  (out-of-bounds index, arithmetic underflow in a debug build) is modelled by
  `RRes`: `ok`, `err` (the `Err(String)` case) or `panic`.
* `&mut` state (the board, the pending-bomb stack `pila_bombas`, the
  per-ray `HashSet` of affected enemies) is threaded explicitly; the
  `HashSet<Punto>` is modelled as a `List Punto` used only through membership.
* `Vec::push` appends at the end, `Vec::pop` removes the last element, so the
  stack is a list whose top is `getLast?`.
-/

/-- `Punto` (src/src/bomberman/punto.rs, declared in mod.rs line 1): an (x, y)
cell coordinate with equality and hashing. -/
structure Punto where
  x : Nat
  y : Nat
deriving DecidableEq, Repr

/-- Outcome of a Rust computation: `Ok`, `Err(String)`, or a runtime panic. -/
inductive RRes (α : Type) where
  | ok : α → RRes α
  | err : String → RRes α
  | panic : RRes α
deriving DecidableEq, Repr

abbrev Tablero := List (List String)

/-- The `Bomberman` struct (mod.rs lines 6-9). -/
structure Bomberman where
  tablero : Tablero
  pila_bombas : List Punto
deriving DecidableEq, Repr

/-- `usize::wrapping_sub(1)` of the source, on `Nat` modulo `2 ^ 64`. -/
def wrapping_sub1 (n : Nat) : Nat := (n + 2 ^ 64 - 1) % 2 ^ 64

/-- Read `tablero[y][x]`; `none` is the case where Rust indexing panics. -/
def getCell (t : Tablero) (x y : Nat) : Option String :=
  (t.get? y).bind fun fila => fila.get? x

/-- Write `tablero[y][x] = v`.  Every write performed by the program is at a
position that was just read successfully, so the out-of-range no-op of
`List.set` is never reached from the call sites. -/
def setCell (t : Tablero) (x y : Nat) (v : String) : Tablero :=
  t.set y ((t.getD y []).set x v)

/-- `calcular_prox` (main source of directions, mod.rs lines 339-364).  Note
that the source computes `(x, y)` for `'L'` - the same point, not `x - 1`. -/
def calcular_prox (direccion : Char) (x y : Nat) : RRes Punto :=
  match direccion with
  | 'U' => .ok ⟨x, wrapping_sub1 y⟩
  | 'D' => .ok ⟨x, y + 1⟩
  | 'R' => .ok ⟨x + 1, y⟩
  | 'L' => .ok ⟨x, y⟩
  | _ => .err "Error: archivo de entrada invalido"

/-- `afectar_enemigo` (mod.rs lines 387-411).  Returns the updated affected
set, the updated board and the `Result`.  The set is extended before the digit
check, as in the source; `vida = 0` hits the `vida - 1` underflow of
`format!("F{}", vida - 1)`, a panic in a debug build. -/
def afectar_enemigo (enemigos_afectados : List Punto) (punto : Punto)
    (tablero : Tablero) (opt_vida_char : Option Char) :
    List Punto × Tablero × RRes Unit :=
  if punto ∈ enemigos_afectados then (enemigos_afectados, tablero, .ok ())
  else
    let ins := punto :: enemigos_afectados
    let num : Char := opt_vida_char.getD 'X'
    if num.isDigit then
      let vida := num.toNat - '0'.toNat
      if vida = 1 then (ins, setCell tablero punto.x punto.y "_", .ok ())
      else if vida = 0 then (ins, tablero, .panic)
      else (ins, setCell tablero punto.x punto.y ("F" ++ toString (vida - 1)), .ok ())
    else (ins, tablero, .err "Error: archivo de entrada invalido")

/-- The mutable state seen by one ray: the shared board, the per-ray affected
set, and the shared `self.pila_bombas`. -/
structure RayState where
  tablero : Tablero
  enemigos : List Punto
  pila : List Punto
deriving DecidableEq, Repr

/-- `Bomberman::explosion_dirigida` (mod.rs lines 178-315): one directional
ray.  The source returns `Ok(())` when `alcance == 0` or the point is outside
`[0, tablero.len())` in either axis; otherwise it classifies the current cell
and recurses with `alcance - 1`.  The `none` cell read models the panic of
`binding[punto.y][punto.x]` on a ragged row. -/
def explosion_dirigida : Nat → Punto → Char → RayState → Char → RayState × RRes Unit
  | 0, _, _, s, _ => (s, .ok ())
  | alcance + 1, punto, tipo, s, direccion =>
    if punto.x ≥ s.tablero.length ∨ punto.y ≥ s.tablero.length then (s, .ok ())
    else
      match calcular_prox direccion punto.x punto.y with
      | .err e => (s, .err e)
      | .panic => (s, .panic)
      | .ok prox =>
        match getCell s.tablero punto.x punto.y with
        | none => (s, .panic)
        | some cell =>
          match cell.data.get? 0 with
          | some '_' => explosion_dirigida alcance ⟨prox.x, prox.y⟩ tipo s direccion
          | some 'D' =>
            match cell.data.get? 1 with
            | some 'U' => explosion_dirigida alcance ⟨punto.x, wrapping_sub1 punto.y⟩ tipo s 'U'
            | some 'R' => explosion_dirigida alcance ⟨punto.x + 1, punto.y⟩ tipo s 'R'
            | some 'L' => explosion_dirigida alcance ⟨wrapping_sub1 punto.x, punto.y⟩ tipo s 'L'
            | some 'D' => explosion_dirigida alcance ⟨punto.x, punto.y + 1⟩ tipo s 'D'
            | _ => (s, .err "Error: archivo de entrada invalido")
          | some 'R' =>
            if tipo = 'S' then explosion_dirigida alcance ⟨prox.x, prox.y⟩ tipo s direccion
            else (s, .ok ())
          | some 'B' => ({ s with pila := s.pila ++ [punto] }, .ok ())
          | some 'S' => ({ s with pila := s.pila ++ [punto] }, .ok ())
          | some 'F' =>
            match afectar_enemigo s.enemigos punto s.tablero (cell.data.get? 1) with
            | (en2, tab2, .ok _) =>
              explosion_dirigida alcance ⟨prox.x, prox.y⟩ tipo
                ⟨tab2, en2, s.pila⟩ direccion
            | (en2, tab2, .err e) => (⟨tab2, en2, s.pila⟩, .err e)
            | (en2, tab2, .panic) => (⟨tab2, en2, s.pila⟩, .panic)
          | some 'W' => (s, .ok ())
          | _ => (s, .err "Error: archivo de entrada invalido")

/-- First `Err` of the collected ray results (the `for resultado in resultados`
loop of `explosion`, mod.rs lines 139-141). -/
def firstErr : List (RRes Unit) → Option String
  | [] => none
  | .err e :: _ => some e
  | _ :: rest => firstErr rest

/-- `Bomberman::explosion` (mod.rs lines 84-143): clears the detonated cell on
a copy of the board, runs the four rays left, up, right, down - each with a
fresh affected-enemies set, all four sharing the board copy and
`self.pila_bombas` - and returns the first error, or the final board.  The
initial guard models the panic of `tablero_aux[y][x] = "_"` when the position
is out of range; a panicking ray aborts the remaining rays. -/
def explosion (st : Bomberman) (x y : Nat) (alcance : Nat) (tipo : Char) :
    RRes Tablero × List Punto :=
  if st.tablero.length ≤ y ∨ (st.tablero.getD y []).length ≤ x then
    (.panic, st.pila_bombas)
  else
    match explosion_dirigida alcance ⟨wrapping_sub1 x, y⟩ tipo
        ⟨setCell st.tablero x y "_", [], st.pila_bombas⟩ 'L' with
    | (s1, r1) =>
      if r1 = .panic then (.panic, s1.pila)
      else
        match explosion_dirigida alcance ⟨x, wrapping_sub1 y⟩ tipo ⟨s1.tablero, [], s1.pila⟩ 'U' with
        | (s2, r2) =>
          if r2 = .panic then (.panic, s2.pila)
          else
            match explosion_dirigida alcance ⟨x + 1, y⟩ tipo ⟨s2.tablero, [], s2.pila⟩ 'R' with
            | (s3, r3) =>
              if r3 = .panic then (.panic, s3.pila)
              else
                match explosion_dirigida alcance ⟨x, y + 1⟩ tipo ⟨s3.tablero, [], s3.pila⟩ 'D' with
                | (s4, r4) =>
                  if r4 = .panic then (.panic, s4.pila)
                  else
                    match firstErr [r1, r2, r3, r4] with
                    | some e => (.err e, s4.pila)
                    | none => (.ok s4.tablero, s4.pila)

/-- A token whose first character is `'B'` or `'S'`: a cell `comenzar` will
detonate (and clear). -/
def isBombStr (s : String) : Bool :=
  match s.data.get? 0 with
  | some 'B' => true
  | some 'S' => true
  | _ => false

/-- Number of bomb cells on the board; the termination measure of `comenzar`. -/
def countBombs (t : Tablero) : Nat := (t.map fun fila => fila.countP isBombStr).sum

/-- Fuel-indexed driver.  `comenzar` below instantiates the fuel with
`countBombs + 1`, which always suffices because every successful `explosion`
clears one bomb cell and never creates one; `comenzar_eq` recovers the exact
recursive equation of the source from this definition, so the fuel-0 sentinel
is unreachable. -/
def comenzarF : Nat → Bomberman → Nat → Nat → RRes Unit × Bomberman
  | 0, st, _, _ => (.panic, st)
  | fuel + 1, st, x, y =>
    match getCell st.tablero x y with
    | none => (.panic, st)
    | some valor =>
      if valor.length < 2 then (.err "Error: coordenadas invalidas", st)
      else
        if valor.data.get? 0 ≠ some 'B' ∧ valor.data.get? 0 ≠ some 'S' then
          (.err "Error: coordenadas invalidas", st)
        else
          if ((valor.data.get? 1).getD 'X').toNat < '0'.toNat then (.panic, st)
          else
            match valor.data.get? 0 with
            | some t =>
              match explosion st x y (((valor.data.get? 1).getD 'X').toNat - '0'.toNat) t with
              | (.err e, pila2) => (.err e, { st with pila_bombas := pila2 })
              | (.panic, pila2) => (.panic, { st with pila_bombas := pila2 })
              | (.ok tab, pila2) =>
                if pila2.isEmpty then (.ok (), ⟨tab, pila2⟩)
                else
                  match pila2.getLast? with
                  | some p => comenzarF fuel ⟨tab, pila2.dropLast⟩ p.x p.y
                  | none => (.ok (), ⟨tab, pila2.dropLast⟩)
            | none => (.err "Error: archivo de entrada invalido", st)

/-- `Bomberman::comenzar` (mod.rs lines 32-60): reads the target cell (a Rust
index panic when out of bounds), rejects tokens shorter than 2 characters or
not starting with `'B'`/`'S'` with "Error: coordenadas invalidas", decodes the
range as `char - '0'` (an underflow panic in a debug build when the second
character is below `'0'`), runs `explosion`, stores the resulting board in
`self.tablero` only on success, and then, while `pila_bombas` is not empty,
pops the last pushed coordinate and recurses (see `comenzar_eq`). -/
def comenzar (st : Bomberman) (x y : Nat) : RRes Unit × Bomberman :=
  comenzarF (countBombs st.tablero + 1) st x y

/-- Fuel-indexed variant of the ray caster in which `fuel` bounds the number
of propagation steps (`none` = bound hit); used to state that a single ray
performs at most `alcance` steps. -/
def explosion_dirigidaF : Nat → Nat → Punto → Char → RayState → Char →
    Option (RayState × RRes Unit)
  | _, 0, _, _, s, _ => some (s, .ok ())
  | 0, _ + 1, punto, _, s, _ =>
    if punto.x ≥ s.tablero.length ∨ punto.y ≥ s.tablero.length then some (s, .ok ())
    else none
  | fuel + 1, alcance + 1, punto, tipo, s, direccion =>
    if punto.x ≥ s.tablero.length ∨ punto.y ≥ s.tablero.length then some (s, .ok ())
    else
      match calcular_prox direccion punto.x punto.y with
      | .err e => some (s, .err e)
      | .panic => some (s, .panic)
      | .ok prox =>
        match getCell s.tablero punto.x punto.y with
        | none => some (s, .panic)
        | some cell =>
          match cell.data.get? 0 with
          | some '_' => explosion_dirigidaF fuel alcance ⟨prox.x, prox.y⟩ tipo s direccion
          | some 'D' =>
            match cell.data.get? 1 with
            | some 'U' => explosion_dirigidaF fuel alcance ⟨punto.x, wrapping_sub1 punto.y⟩ tipo s 'U'
            | some 'R' => explosion_dirigidaF fuel alcance ⟨punto.x + 1, punto.y⟩ tipo s 'R'
            | some 'L' => explosion_dirigidaF fuel alcance ⟨wrapping_sub1 punto.x, punto.y⟩ tipo s 'L'
            | some 'D' => explosion_dirigidaF fuel alcance ⟨punto.x, punto.y + 1⟩ tipo s 'D'
            | _ => some (s, .err "Error: archivo de entrada invalido")
          | some 'R' =>
            if tipo = 'S' then explosion_dirigidaF fuel alcance ⟨prox.x, prox.y⟩ tipo s direccion
            else some (s, .ok ())
          | some 'B' => some ({ s with pila := s.pila ++ [punto] }, .ok ())
          | some 'S' => some ({ s with pila := s.pila ++ [punto] }, .ok ())
          | some 'F' =>
            match afectar_enemigo s.enemigos punto s.tablero (cell.data.get? 1) with
            | (en2, tab2, .ok _) =>
              explosion_dirigidaF fuel alcance ⟨prox.x, prox.y⟩ tipo ⟨tab2, en2, s.pila⟩ direccion
            | (en2, tab2, .err e) => some (⟨tab2, en2, s.pila⟩, .err e)
            | (en2, tab2, .panic) => some (⟨tab2, en2, s.pila⟩, .panic)
          | some 'W' => some (s, .ok ())
          | _ => some (s, .err "Error: archivo de entrada invalido")

/-- `validos_no_bomba` (main.rs lines 148-159); note the list stops at `F3`. -/
def validos_no_bomba : List String :=
  ["_", "W", "R", "DU", "DL", "DR", "DD", "F1", "F2", "F3"]

/-- One cell of the loop body of `es_tablero_valido` (main.rs lines 160-173).
By Rust precedence `|` binds tighter than `&&`, so the bomb fallthrough reads
`(prim == 'S' or prim == 'B') and sec digit and sec != '0'`; only the first
two characters are examined. -/
def es_casilla_valida (elem : String) : Bool :=
  if validos_no_bomba.contains elem then true
  else
    ((elem.data.get? 0 == some 'S') || (elem.data.get? 0 == some 'B'))
      && ((elem.data.get? 1).getD 'X').isDigit
      && ((elem.data.get? 1).getD 'X') != '0'

/-- `es_tablero_valido` (main.rs lines 147-175): the loop with early
`return false` accepts exactly when every cell passes. -/
def es_tablero_valido (tablero : Tablero) : Bool :=
  tablero.all fun fila => fila.all es_casilla_valida

/-- The token set of the amended validity claim, written from its wording: one
of the ten literal tokens, or a first character `B`/`S` followed by a digit
1-9 with arbitrary trailing characters. -/
def tokenAceptado (s : String) : Prop :=
  s ∈ validos_no_bomba ∨
  ((s.data.get? 0 = some 'B' ∨ s.data.get? 0 = some 'S') ∧
    ∃ c, s.data.get? 1 = some c ∧ c.isDigit = true ∧ c ≠ '0')

/-- A loader-valid board on which the same bomb coordinate is chained twice:
detonating (1, 1) chains (1, 0) via the up ray and (1, 2) via the down ray,
and the detonation of (1, 2) chains (1, 0) a second time. -/
def stCadenaDoble : Bomberman :=
  ⟨[["_", "B1", "_"], ["_", "B2", "_"], ["_", "B2", "_"]], []⟩

/-! ### List-level helper lemmas for `get?` / `set` / `countP` -/

theorem listGet_set_ne {α : Type} (l : List α) (i j : Nat) (v : α) (h : i ≠ j) :
    (l.set i v).get? j = l.get? j := by
  induction l generalizing i j with
  | nil => rfl
  | cons a l ih =>
    cases i with
    | zero => cases j with
      | zero => exact absurd rfl h
      | succ j => rfl
    | succ i => cases j with
      | zero => rfl
      | succ j => exact ih i j (fun he => h (by rw [he]))

theorem listGet_some_lt {α : Type} (l : List α) (i : Nat) (a : α)
    (h : l.get? i = some a) : i < l.length := by
  induction l generalizing i with
  | nil => simp [List.get?] at h
  | cons b l ih =>
    cases i with
    | zero => simp
    | succ i => exact Nat.succ_lt_succ (ih i h)

theorem listGet_set_self {α : Type} (l : List α) (i : Nat) (v : α)
    (h : i < l.length) : (l.set i v).get? i = some v := by
  induction l generalizing i with
  | nil => simp at h
  | cons a l ih =>
    cases i with
    | zero => rfl
    | succ i => exact ih i (Nat.lt_of_succ_lt_succ h)

theorem listGetD_eq_get? {α : Type} (l : List α) (i : Nat) (d : α) :
    l.getD i d = (l.get? i).getD d := by
  induction l generalizing i with
  | nil => rfl
  | cons a l ih => cases i with
    | zero => rfl
    | succ i => exact ih i

theorem countP_set_le (l : List String) (i : Nat) (v : String)
    (hv : isBombStr v = false) :
    (l.set i v).countP isBombStr ≤ l.countP isBombStr := by
  induction l generalizing i with
  | nil => simp
  | cons a l ih =>
    cases i with
    | zero => simp [List.countP_cons, hv]
    | succ i => simp only [List.set, List.countP_cons]; exact Nat.add_le_add (ih i) le_rfl

theorem countP_set_lt (l : List String) (i : Nat) (v w : String)
    (hw : l.get? i = some w) (hbw : isBombStr w = true) (hv : isBombStr v = false) :
    (l.set i v).countP isBombStr < l.countP isBombStr := by
  induction l generalizing i with
  | nil => simp [List.get?] at hw
  | cons a l ih =>
    cases i with
    | zero =>
      have ha : a = w := by simpa using hw
      subst ha
      simp [List.countP_cons, hv, hbw]
    | succ i =>
      simp only [List.set, List.countP_cons]
      exact Nat.add_lt_add_right (ih i hw) _

/-! ### `countBombs` facts about `getCell` / `setCell` -/

theorem getCell_some_bounds (t : Tablero) (x y : Nat) (w : String)
    (h : getCell t x y = some w) :
    y < t.length ∧ x < (t.getD y []).length := by
  unfold getCell at h
  cases hrow : t.get? y with
  | none => rw [hrow] at h; simp at h
  | some fila =>
    rw [hrow] at h
    simp only [Option.some_bind] at h
    refine ⟨listGet_some_lt t y fila hrow, ?_⟩
    rw [listGetD_eq_get?, hrow]
    exact listGet_some_lt fila x w h

theorem countBombs_setCell_le (t : Tablero) (x y : Nat) (v : String)
    (hv : isBombStr v = false) : countBombs (setCell t x y v) ≤ countBombs t := by
  unfold setCell countBombs
  induction t generalizing y with
  | nil => exact le_rfl
  | cons fila t ih =>
    cases y with
    | zero =>
      simp only [List.getD_cons_zero, List.set, List.map_cons, List.sum_cons]
      exact Nat.add_le_add (countP_set_le fila x v hv) le_rfl
    | succ y =>
      simp only [List.getD_cons_succ, List.set, List.map_cons, List.sum_cons]
      exact Nat.add_le_add le_rfl (ih y)

theorem countBombs_setCell_lt (t : Tablero) (x y : Nat) (v w : String)
    (hw : getCell t x y = some w) (hbw : isBombStr w = true)
    (hv : isBombStr v = false) : countBombs (setCell t x y v) < countBombs t := by
  unfold setCell countBombs
  induction t generalizing y with
  | nil => simp [getCell, List.get?] at hw
  | cons fila t ih =>
    cases y with
    | zero =>
      have hcell : fila.get? x = some w := by simpa [getCell] using hw
      simp only [List.getD_cons_zero, List.set, List.map_cons, List.sum_cons]
      exact Nat.add_lt_add_right (countP_set_lt fila x v w hcell hbw hv) _
    | succ y =>
      have hcell : getCell t x y = some w := by simpa [getCell] using hw
      simp only [List.getD_cons_succ, List.set, List.map_cons, List.sum_cons]
      exact Nat.add_lt_add_left (ih y hcell) _

theorem isBombStr_underscore : isBombStr "_" = false := rfl

theorem isBombStr_F_append (s : String) : isBombStr ("F" ++ s) = false := by
  obtain ⟨d⟩ := s
  rfl

theorem listGet_set_none {α : Type} (l : List α) (i : Nat) (v : α)
    (h : l.get? i = none) : (l.set i v).get? i = none := by
  induction l generalizing i with
  | nil => rfl
  | cons a l ih =>
    cases i with
    | zero => simp [List.get?] at h
    | succ i => exact ih i h

/-- The board produced by `afectar_enemigo` is either unchanged or a single
write of a non-bomb token at the enemy's position. -/
theorem afectar_tab_cases (en : List Punto) (p : Punto) (t : Tablero) (o : Option Char)
    (en2 : List Punto) (tab2 : Tablero) (r : RRes Unit)
    (heq : afectar_enemigo en p t o = (en2, tab2, r)) :
    tab2 = t ∨ ∃ v, tab2 = setCell t p.x p.y v ∧ isBombStr v = false := by
  unfold afectar_enemigo at heq
  split at heq
  · cases heq; exact Or.inl rfl
  · dsimp only at heq
    split at heq
    · split at heq
      · cases heq; exact Or.inr ⟨"_", rfl, isBombStr_underscore⟩
      · split at heq
        · cases heq; exact Or.inl rfl
        · cases heq; exact Or.inr ⟨_, rfl, isBombStr_F_append _⟩
    · cases heq; exact Or.inl rfl

theorem getCell_setCell_ne (t : Tablero) (x y a b : Nat) (v : String)
    (h : ¬(a = x ∧ b = y)) : getCell (setCell t x y v) a b = getCell t a b := by
  unfold getCell setCell
  by_cases hy : b = y
  · subst hy
    have hx : a ≠ x := fun he => h ⟨he, rfl⟩
    cases hrow : t.get? b with
    | none =>
      rw [listGet_set_none t b _ hrow]
    | some fila =>
      have hlen := listGet_some_lt t b fila hrow
      rw [listGet_set_self t b _ hlen, listGetD_eq_get?, hrow]
      simp only [Option.getD_some, Option.some_bind]
      exact listGet_set_ne fila x a v fun he => hx he.symm
  · rw [listGet_set_ne t y b _ fun he => hy he.symm]

theorem getCell_setCell_self (t : Tablero) (x y : Nat) (v w : String)
    (h : getCell t x y = some w) : getCell (setCell t x y v) x y = some v := by
  obtain ⟨hy, hx⟩ := getCell_some_bounds t x y w h
  unfold getCell setCell
  rw [listGet_set_self t y _ hy]
  simp only [Option.some_bind]
  exact listGet_set_self _ x v hx

/-- Core ray invariant: a ray never increases the number of bomb cells, and
every cell holding a token that is neither a bomb (`B`/`S` head) nor an enemy
(`F` head) keeps its exact value. -/
theorem explosion_dirigida_tab_inv (alcance : Nat) (punto : Punto) (tipo : Char)
    (s : RayState) (direccion : Char) :
    countBombs (explosion_dirigida alcance punto tipo s direccion).1.tablero ≤
      countBombs s.tablero ∧
    ∀ a b v, getCell s.tablero a b = some v → isBombStr v = false →
      v.data.get? 0 ≠ some 'F' →
      getCell (explosion_dirigida alcance punto tipo s direccion).1.tablero a b = some v := by
  induction alcance generalizing punto s direccion with
  | zero => exact ⟨le_rfl, fun a b v hv _ _ => hv⟩
  | succ n ih =>
    simp only [explosion_dirigida]
    split
    · exact ⟨le_rfl, fun a b v hv _ _ => hv⟩
    · split
      · exact ⟨le_rfl, fun a b v hv _ _ => hv⟩
      · exact ⟨le_rfl, fun a b v hv _ _ => hv⟩
      · split
        · exact ⟨le_rfl, fun a b v hv _ _ => hv⟩
        · rename_i hcell
          split
          · exact ih _ _ _
          · split
            · exact ih _ _ _
            · exact ih _ _ _
            · exact ih _ _ _
            · exact ih _ _ _
            · exact ⟨le_rfl, fun a b v hv _ _ => hv⟩
          · split
            · exact ih _ _ _
            · exact ⟨le_rfl, fun a b v hv _ _ => hv⟩
          · exact ⟨le_rfl, fun a b v hv _ _ => hv⟩
          · exact ⟨le_rfl, fun a b v hv _ _ => hv⟩
          · rename_i hhead
            split
            · rename_i en2 tab2 val heq
              have htab := afectar_tab_cases _ _ _ _ _ _ _ heq
              have htab2_le : countBombs tab2 ≤ countBombs s.tablero := by
                rcases htab with h | ⟨v, hvset, hvb⟩
                · rw [h]
                · rw [hvset]; exact countBombs_setCell_le _ _ _ _ hvb
              have htab2_keep : ∀ a b v, getCell s.tablero a b = some v →
                  isBombStr v = false → v.data.get? 0 ≠ some 'F' →
                  getCell tab2 a b = some v := by
                intro a b v hv hnb hnF
                have hne : ¬(a = punto.x ∧ b = punto.y) := by
                  rintro ⟨rfl, rfl⟩
                  rw [hv] at hcell
                  cases hcell
                  exact hnF hhead
                rcases htab with h | ⟨w, hvset, _⟩
                · rw [h]; exact hv
                · rw [hvset]; exact (getCell_setCell_ne _ _ _ _ _ _ hne).trans hv
              refine ⟨le_trans (ih _ _ _).1 htab2_le, ?_⟩
              intro a b v hv hnb hnF
              exact (ih _ _ _).2 a b v (htab2_keep a b v hv hnb hnF) hnb hnF
            · rename_i en2 tab2 e heq
              have htab := afectar_tab_cases _ _ _ _ _ _ _ heq
              constructor
              · rcases htab with h | ⟨v, hvset, hvb⟩
                · rw [h]
                · rw [hvset]; exact countBombs_setCell_le _ _ _ _ hvb
              · intro a b v hv hnb hnF
                have hne : ¬(a = punto.x ∧ b = punto.y) := by
                  rintro ⟨rfl, rfl⟩
                  rw [hv] at hcell
                  cases hcell
                  exact hnF hhead
                rcases htab with h | ⟨w, hvset, _⟩
                · rw [h]; exact hv
                · rw [hvset]; exact (getCell_setCell_ne _ _ _ _ _ _ hne).trans hv
            · rename_i en2 tab2 heq
              have htab := afectar_tab_cases _ _ _ _ _ _ _ heq
              constructor
              · rcases htab with h | ⟨v, hvset, hvb⟩
                · rw [h]
                · rw [hvset]; exact countBombs_setCell_le _ _ _ _ hvb
              · intro a b v hv hnb hnF
                have hne : ¬(a = punto.x ∧ b = punto.y) := by
                  rintro ⟨rfl, rfl⟩
                  rw [hv] at hcell
                  cases hcell
                  exact hnF hhead
                rcases htab with h | ⟨w, hvset, _⟩
                · rw [h]; exact hv
                · rw [hvset]; exact (getCell_setCell_ne _ _ _ _ _ _ hne).trans hv
          · exact ⟨le_rfl, fun a b v hv _ _ => hv⟩
          · exact ⟨le_rfl, fun a b v hv _ _ => hv⟩

/-- A successful `explosion` strictly decreases the number of bomb cells,
keeps every cell whose token has neither a bomb head nor an `F` head, and
leaves `"_"` at the detonated position. -/
theorem explosion_ok_tab (st : Bomberman) (x y alcance : Nat) (tipo : Char)
    (w : String) (hw : getCell st.tablero x y = some w) (hbw : isBombStr w = true)
    (tab : Tablero) (pila2 : List Punto)
    (hok : explosion st x y alcance tipo = (.ok tab, pila2)) :
    countBombs tab < countBombs st.tablero ∧
    (∀ a b v, getCell st.tablero a b = some v → isBombStr v = false →
      v.data.get? 0 ≠ some 'F' → getCell tab a b = some v) ∧
    getCell tab x y = some "_" := by
  obtain ⟨hy, hx⟩ := getCell_some_bounds st.tablero x y w hw
  unfold explosion at hok
  rw [if_neg (by omega)] at hok
  split at hok
  rename_i s1 r1 h1
  split at hok
  · simp at hok
  split at hok
  rename_i s2 r2 h2
  split at hok
  · simp at hok
  split at hok
  rename_i s3 r3 h3
  split at hok
  · simp at hok
  split at hok
  rename_i s4 r4 h4
  split at hok
  · simp at hok
  split at hok
  · simp at hok
  · rename_i hferr
    obtain ⟨htab, hpila⟩ : s4.tablero = tab ∧ s4.pila = pila2 := by
      constructor <;> cases hok <;> rfl
    have i1 := explosion_dirigida_tab_inv alcance ⟨wrapping_sub1 x, y⟩ tipo
      ⟨setCell st.tablero x y "_", [], st.pila_bombas⟩ 'L'
    rw [h1] at i1
    have i2 := explosion_dirigida_tab_inv alcance ⟨x, wrapping_sub1 y⟩ tipo
      ⟨s1.tablero, [], s1.pila⟩ 'U'
    rw [h2] at i2
    have i3 := explosion_dirigida_tab_inv alcance ⟨x + 1, y⟩ tipo
      ⟨s2.tablero, [], s2.pila⟩ 'R'
    rw [h3] at i3
    have i4 := explosion_dirigida_tab_inv alcance ⟨x, y + 1⟩ tipo
      ⟨s3.tablero, [], s3.pila⟩ 'D'
    rw [h4] at i4
    subst htab
    refine ⟨?_, ?_, ?_⟩
    · exact lt_of_le_of_lt
        (le_trans i4.1 (le_trans i3.1 (le_trans i2.1 i1.1)))
        (countBombs_setCell_lt st.tablero x y "_" w hw hbw isBombStr_underscore)
    · intro a b v hv hnb hnF
      have hne : ¬(a = x ∧ b = y) := by
        rintro ⟨rfl, rfl⟩
        rw [hv] at hw
        cases hw
        rw [hbw] at hnb
        cases hnb
      have h0 : getCell (setCell st.tablero x y "_") a b = some v :=
        (getCell_setCell_ne _ _ _ _ _ _ hne).trans hv
      exact i4.2 a b v (i3.2 a b v (i2.2 a b v (i1.2 a b v h0 hnb hnF) hnb hnF) hnb hnF) hnb hnF
    · have h0 : getCell (setCell st.tablero x y "_") x y = some "_" :=
        getCell_setCell_self st.tablero x y "_" w hw
      have hu1 : isBombStr "_" = false := isBombStr_underscore
      have hu2 : ("_" : String).data.get? 0 ≠ some 'F' := by decide
      exact i4.2 x y "_" (i3.2 x y "_" (i2.2 x y "_" (i1.2 x y "_" h0 hu1 hu2) hu1 hu2) hu1 hu2) hu1 hu2

theorem isBombStr_of_guard (valor : String)
    (h2 : ¬(valor.data.get? 0 ≠ some 'B' ∧ valor.data.get? 0 ≠ some 'S')) :
    isBombStr valor = true := by
  rcases Decidable.not_and_iff_or_not.mp h2 with h | h
  all_goals rw [Decidable.not_not] at h
  all_goals unfold isBombStr
  all_goals rw [h]
  all_goals rfl

theorem listIsEmpty_nil {α : Type} (l : List α) (h : l.isEmpty = true) : l = [] := by
  cases l with
  | nil => rfl
  | cons a as => simp [List.isEmpty] at h

theorem listGetLast_none {α : Type} (l : List α) (h : l.getLast? = none) : l = [] := by
  cases l with
  | nil => rfl
  | cons a as => simp [List.getLast?_eq_getLast] at h

theorem comenzarF_irrel : ∀ (f1 f2 : Nat) (st : Bomberman) (x y : Nat),
    countBombs st.tablero < f1 → countBombs st.tablero < f2 →
    comenzarF f1 st x y = comenzarF f2 st x y := by
  intro f1
  induction f1 using Nat.strong_induction_on with
  | _ f1 ih =>
    intro f2 st x y h1 h2
    cases f1 with
    | zero => exact absurd h1 (Nat.not_lt_zero _)
    | succ g1 =>
      cases f2 with
      | zero => exact absurd h2 (Nat.not_lt_zero _)
      | succ g2 =>
        simp only [comenzarF]
        split
        · rfl
        · rename_i valor hval
          split
          · rfl
          · split
            · rfl
            · rename_i h2g
              split
              · rfl
              · split
                · rename_i t htq
                  split
                  · rfl
                  · rfl
                  · rename_i tab pila2 hexp
                    split
                    · rfl
                    · split
                      · rename_i p hpop
                        have hbomb := isBombStr_of_guard valor h2g
                        have hlt := (explosion_ok_tab st x y _ t valor hval hbomb tab pila2 hexp).1
                        have hred : countBombs (⟨tab, pila2.dropLast⟩ : Bomberman).tablero
                            = countBombs tab := rfl
                        exact ih g1 (Nat.lt_succ_self g1) g2 ⟨tab, pila2.dropLast⟩ p.x p.y
                          (by omega) (by omega)
                      · rfl
                · rfl

/-- The recursive equation of `Bomberman::comenzar` (mod.rs lines 32-60),
exactly as written in the source; the fuel of `comenzarF` is invisible. -/
theorem comenzar_eq (st : Bomberman) (x y : Nat) :
    comenzar st x y =
      match getCell st.tablero x y with
      | none => (.panic, st)
      | some valor =>
        if valor.length < 2 then (.err "Error: coordenadas invalidas", st)
        else
          if valor.data.get? 0 ≠ some 'B' ∧ valor.data.get? 0 ≠ some 'S' then
            (.err "Error: coordenadas invalidas", st)
          else
            if ((valor.data.get? 1).getD 'X').toNat < '0'.toNat then (.panic, st)
            else
              match valor.data.get? 0 with
              | some t =>
                match explosion st x y (((valor.data.get? 1).getD 'X').toNat - '0'.toNat) t with
                | (.err e, pila2) => (.err e, { st with pila_bombas := pila2 })
                | (.panic, pila2) => (.panic, { st with pila_bombas := pila2 })
                | (.ok tab, pila2) =>
                  if pila2.isEmpty then (.ok (), ⟨tab, pila2⟩)
                  else
                    match pila2.getLast? with
                    | some p => comenzar ⟨tab, pila2.dropLast⟩ p.x p.y
                    | none => (.ok (), ⟨tab, pila2.dropLast⟩)
              | none => (.err "Error: archivo de entrada invalido", st) := by
  show comenzarF (countBombs st.tablero + 1) st x y = _
  simp only [comenzarF]
  split
  · rfl
  · rename_i valor hval
    split
    · rfl
    · split
      · rfl
      · rename_i h2g
        split
        · rfl
        · split
          · rename_i t htq
            split
            · rfl
            · rfl
            · rename_i tab pila2 hexp
              split
              · rfl
              · split
                · rename_i p hpop
                  have hbomb := isBombStr_of_guard valor h2g
                  have hlt := (explosion_ok_tab st x y _ t valor hval hbomb tab pila2 hexp).1
                  have hred : countBombs (⟨tab, pila2.dropLast⟩ : Bomberman).tablero
                      = countBombs tab := rfl
                  show comenzarF (countBombs st.tablero) ⟨tab, pila2.dropLast⟩ p.x p.y
                      = comenzarF (countBombs (⟨tab, pila2.dropLast⟩ : Bomberman).tablero + 1)
                          ⟨tab, pila2.dropLast⟩ p.x p.y
                  exact comenzarF_irrel (countBombs st.tablero) _ ⟨tab, pila2.dropLast⟩ p.x p.y
                    (by omega) (by omega)
                · rfl
          · rfl

/-- Every cell whose token has neither a bomb head (`B`/`S`) nor an enemy head
(`F`) keeps its exact value across a whole `comenzar` run, whatever the
outcome. -/
theorem comenzar_keep : ∀ (n : Nat) (st : Bomberman), countBombs st.tablero = n →
    ∀ x y a b v, getCell st.tablero a b = some v → isBombStr v = false →
    v.data.get? 0 ≠ some 'F' → getCell (comenzar st x y).2.tablero a b = some v := by
  intro n
  induction n using Nat.strong_induction_on with
  | _ n ih =>
    intro st hn x y a b v hv hnb hnF
    rw [comenzar_eq]
    split
    · exact hv
    · rename_i valor hval
      split
      · exact hv
      · split
        · exact hv
        · rename_i h2
          split
          · exact hv
          · split
            · rename_i t htq
              split
              · exact hv
              · exact hv
              · rename_i tab pila2 hexp
                have hbomb := isBombStr_of_guard valor h2
                have hfacts := explosion_ok_tab st x y _ t valor hval hbomb tab pila2 hexp
                split
                · exact hfacts.2.1 a b v hv hnb hnF
                · split
                  · rename_i p hpop
                    have hm : countBombs tab < n := hn ▸ hfacts.1
                    exact ih (countBombs tab) hm ⟨tab, pila2.dropLast⟩ rfl p.x p.y a b v
                      (hfacts.2.1 a b v hv hnb hnF) hnb hnF
                  · exact hfacts.2.1 a b v hv hnb hnF
            · exact hv

/-- When `comenzar` returns `Ok`, the pending stack has been fully drained and
the starting cell has been cleared to `"_"`. -/
theorem comenzar_ok_state : ∀ (n : Nat) (st : Bomberman), countBombs st.tablero = n →
    ∀ x y st2, comenzar st x y = (.ok (), st2) →
    st2.pila_bombas = [] ∧ getCell st2.tablero x y = some "_" := by
  intro n
  induction n using Nat.strong_induction_on with
  | _ n ih =>
    intro st hn x y st2 hcall
    rw [comenzar_eq] at hcall
    split at hcall
    · simp at hcall
    · rename_i valor hval
      split at hcall
      · simp at hcall
      · split at hcall
        · simp at hcall
        · rename_i h2
          split at hcall
          · simp at hcall
          · split at hcall
            · rename_i t htq
              split at hcall
              · simp at hcall
              · simp at hcall
              · rename_i tab pila2 hexp
                have hbomb := isBombStr_of_guard valor h2
                have hfacts := explosion_ok_tab st x y _ t valor hval hbomb tab pila2 hexp
                split at hcall
                · rename_i hemp
                  injection hcall with h3 h4
                  subst h4
                  exact ⟨listIsEmpty_nil pila2 hemp, hfacts.2.2⟩
                · split at hcall
                  · rename_i p hpop
                    have hm : countBombs tab < n := hn ▸ hfacts.1
                    refine ⟨(ih (countBombs tab) hm ⟨tab, pila2.dropLast⟩ rfl p.x p.y st2 hcall).1, ?_⟩
                    have hkeep := comenzar_keep (countBombs tab) ⟨tab, pila2.dropLast⟩ rfl
                      p.x p.y x y "_" hfacts.2.2 isBombStr_underscore (by decide)
                    rw [hcall] at hkeep
                    exact hkeep
                  · rename_i hemp hscr hpop
                    have hnil : pila2 = [] := listGetLast_none pila2 hpop
                    rw [hnil] at hemp
                    exact absurd rfl hemp
            · simp at hcall

/-- One classification step of the ray caster, assuming the direction yields
`prox`, the point is inside the board, and the cell reads as `cell`. -/
theorem explosion_dirigida_step (n : Nat) (punto prox : Punto) (tipo : Char)
    (s : RayState) (direccion : Char)
    (hprox : calcular_prox direccion punto.x punto.y = RRes.ok prox)
    (hx : punto.x < s.tablero.length) (hy : punto.y < s.tablero.length)
    (cell : String) (hcell : getCell s.tablero punto.x punto.y = some cell) :
    explosion_dirigida (n + 1) punto tipo s direccion =
      match cell.data.get? 0 with
      | some '_' => explosion_dirigida n ⟨prox.x, prox.y⟩ tipo s direccion
      | some 'D' =>
        (match cell.data.get? 1 with
         | some 'U' => explosion_dirigida n ⟨punto.x, wrapping_sub1 punto.y⟩ tipo s 'U'
         | some 'R' => explosion_dirigida n ⟨punto.x + 1, punto.y⟩ tipo s 'R'
         | some 'L' => explosion_dirigida n ⟨wrapping_sub1 punto.x, punto.y⟩ tipo s 'L'
         | some 'D' => explosion_dirigida n ⟨punto.x, punto.y + 1⟩ tipo s 'D'
         | _ => (s, .err "Error: archivo de entrada invalido"))
      | some 'R' =>
        if tipo = 'S' then explosion_dirigida n ⟨prox.x, prox.y⟩ tipo s direccion
        else (s, .ok ())
      | some 'B' => ({ s with pila := s.pila ++ [punto] }, .ok ())
      | some 'S' => ({ s with pila := s.pila ++ [punto] }, .ok ())
      | some 'F' =>
        (match afectar_enemigo s.enemigos punto s.tablero (cell.data.get? 1) with
         | (en2, tab2, .ok _) =>
           explosion_dirigida n ⟨prox.x, prox.y⟩ tipo ⟨tab2, en2, s.pila⟩ direccion
         | (en2, tab2, .err e) => (⟨tab2, en2, s.pila⟩, .err e)
         | (en2, tab2, .panic) => (⟨tab2, en2, s.pila⟩, .panic))
      | some 'W' => (s, .ok ())
      | _ => (s, .err "Error: archivo de entrada invalido") := by
  simp only [explosion_dirigida]
  rw [if_neg (by omega), hprox, hcell]

/-- The same step for the fuel-indexed ray caster. -/
theorem explosion_dirigidaF_step (m n : Nat) (punto prox : Punto) (tipo : Char)
    (s : RayState) (direccion : Char)
    (hprox : calcular_prox direccion punto.x punto.y = RRes.ok prox)
    (hx : punto.x < s.tablero.length) (hy : punto.y < s.tablero.length)
    (cell : String) (hcell : getCell s.tablero punto.x punto.y = some cell) :
    explosion_dirigidaF (m + 1) (n + 1) punto tipo s direccion =
      match cell.data.get? 0 with
      | some '_' => explosion_dirigidaF m n ⟨prox.x, prox.y⟩ tipo s direccion
      | some 'D' =>
        (match cell.data.get? 1 with
         | some 'U' => explosion_dirigidaF m n ⟨punto.x, wrapping_sub1 punto.y⟩ tipo s 'U'
         | some 'R' => explosion_dirigidaF m n ⟨punto.x + 1, punto.y⟩ tipo s 'R'
         | some 'L' => explosion_dirigidaF m n ⟨wrapping_sub1 punto.x, punto.y⟩ tipo s 'L'
         | some 'D' => explosion_dirigidaF m n ⟨punto.x, punto.y + 1⟩ tipo s 'D'
         | _ => some (s, .err "Error: archivo de entrada invalido"))
      | some 'R' =>
        if tipo = 'S' then explosion_dirigidaF m n ⟨prox.x, prox.y⟩ tipo s direccion
        else some (s, .ok ())
      | some 'B' => some ({ s with pila := s.pila ++ [punto] }, .ok ())
      | some 'S' => some ({ s with pila := s.pila ++ [punto] }, .ok ())
      | some 'F' =>
        (match afectar_enemigo s.enemigos punto s.tablero (cell.data.get? 1) with
         | (en2, tab2, .ok _) =>
           explosion_dirigidaF m n ⟨prox.x, prox.y⟩ tipo ⟨tab2, en2, s.pila⟩ direccion
         | (en2, tab2, .err e) => some (⟨tab2, en2, s.pila⟩, .err e)
         | (en2, tab2, .panic) => some (⟨tab2, en2, s.pila⟩, .panic))
      | some 'W' => some (s, .ok ())
      | _ => some (s, .err "Error: archivo de entrada invalido") := by
  simp only [explosion_dirigidaF]
  rw [if_neg (by omega), hprox, hcell]

/-- A ray at an out-of-range coordinate returns `Ok` with the state untouched,
whatever the remaining range. -/
theorem explosion_dirigida_oob (alcance : Nat) (punto : Punto) (tipo : Char)
    (s : RayState) (direccion : Char)
    (h : punto.x ≥ s.tablero.length ∨ punto.y ≥ s.tablero.length) :
    explosion_dirigida alcance punto tipo s direccion = (s, .ok ()) := by
  cases alcance with
  | zero => rfl
  | succ n =>
    simp only [explosion_dirigida]
    rw [if_pos h]

/-- Per-token equivalence between the loop body of the validator and the
amended token description. -/
theorem es_casilla_valida_iff (s : String) :
    es_casilla_valida s = true ↔ tokenAceptado s := by
  unfold es_casilla_valida tokenAceptado
  split
  · rename_i hc
    exact iff_of_true rfl (Or.inl (List.elem_iff.mp hc))
  · rename_i hc
    have hmem : s ∉ validos_no_bomba := fun hm => hc (List.elem_iff.mpr hm)
    cases h1 : s.data.get? 1 with
    | none =>
      simp only [h1, Option.getD_none]
      constructor
      · intro hb
        simp [Bool.and_eq_true] at hb
      · intro hor
        rcases hor with hm | ⟨-, c, hc2, -⟩
        · exact absurd hm hmem
        · exact Option.noConfusion hc2
    | some c =>
      simp only [h1, Option.getD_some]
      constructor
      · intro hb
        simp only [Bool.and_eq_true, Bool.or_eq_true, beq_iff_eq, bne_iff_ne] at hb
        exact Or.inr ⟨hb.1.1.elim (fun h => Or.inr h) (fun h => Or.inl h),
          c, rfl, hb.1.2, hb.2⟩
      · intro hor
        rcases hor with hm | ⟨hhead, c2, hc2, hd, hn0⟩
        · exact absurd hm hmem
        · injection hc2 with hcc
          subst hcc
          simp only [Bool.and_eq_true, Bool.or_eq_true, beq_iff_eq, bne_iff_ne]
          exact ⟨⟨hhead.elim (fun h => Or.inr h) (fun h => Or.inl h), hd⟩, hn0⟩

/-- C1 (amended): when `comenzar` returns `Ok` the pending stack has been
drained empty and the detonated starting cell holds `"_"`; the driver pops the
most recently chained coordinate first (`comenzar_eq`).  The original claim's
"even when the same bomb coordinate has been pushed more than once" part is
false: a popped coordinate whose cell is no longer a bomb token makes
`comenzar` return the InvalidCoordinates error (see `C1_counterexample`). -/
theorem C1_chain_drains (st : Bomberman) (x y : Nat) (st2 : Bomberman)
    (h : comenzar st x y = (.ok (), st2)) :
    st2.pila_bombas = [] ∧ getCell st2.tablero x y = some "_" :=
  comenzar_ok_state (countBombs st.tablero) st rfl x y st2 h

theorem C1_witness :
    (⟨[["_"]], []⟩ : Bomberman).pila_bombas = [] ∧ getCell [["_"]] 0 0 = some "_" :=
  C1_chain_drains ⟨[["B1"]], []⟩ 0 0 ⟨[["_"]], []⟩ (by decide)

/-- C1 counterexample: on the loader-valid board of `stCadenaDoble`, whose
starting cell (1, 1) is the bomb `B2`, the chain pushes coordinate (1, 0)
twice; the second pop finds `"_"` and `comenzar` returns the
InvalidCoordinates error instead of the `Ok` promised by the claim. -/
theorem C1_counterexample :
    es_tablero_valido stCadenaDoble.tablero = true ∧
    getCell stCadenaDoble.tablero 1 1 = some "B2" ∧
    (comenzar stCadenaDoble 1 1).1 = RRes.err "Error: coordenadas invalidas" := by
  decide

/-- C2 (amended): error propagation is atomic per detonation step, not per
chain: when the `explosion` of the step itself fails, `comenzar` returns that
error and `self.tablero` still holds the board from before the step (the
in-progress `tablero_aux` is discarded), while `pila_bombas` keeps the pushes
made before the failure.  Mutations of earlier fully successful steps remain
in `self.tablero` on error (see `C2_counterexample`). -/
theorem C2_step_atomicity (st : Bomberman) (x y : Nat) (v : String) (t c : Char)
    (e : String) (pila2 : List Punto)
    (hv : getCell st.tablero x y = some v) (hlen : ¬ v.length < 2)
    (ht : v.data.get? 0 = some t) (hts : t = 'B' ∨ t = 'S')
    (hc : v.data.get? 1 = some c) (hge : '0'.toNat ≤ c.toNat)
    (hexp : explosion st x y (c.toNat - '0'.toNat) t = (.err e, pila2)) :
    comenzar st x y = (.err e, ⟨st.tablero, pila2⟩) := by
  rw [comenzar_eq]
  split
  · rename_i hnone
    rw [hv] at hnone
    exact Option.noConfusion hnone
  · rename_i valor hval
    rw [hv] at hval
    injection hval with hval2
    subst hval2
    rw [if_neg hlen]
    rw [if_neg (show ¬(v.data.get? 0 ≠ some 'B' ∧ v.data.get? 0 ≠ some 'S') from
      fun hcon => hts.elim (fun h => hcon.1 (by rw [ht, h]))
        (fun h => hcon.2 (by rw [ht, h])))]
    rw [if_neg (show ¬ ((v.data.get? 1).getD 'X').toNat < '0'.toNat from by
      rw [hc]
      simpa using hge)]
    split
    · rename_i t2 ht2
      rw [ht] at ht2
      injection ht2 with ht3
      subst ht3
      rw [hc]
      simp only [Option.getD_some]
      rw [hexp]
    · rename_i ht2
      rw [ht] at ht2
      exact Option.noConfusion ht2

theorem C2_witness :
    comenzar ⟨[["B1", "Z"], ["_", "_"]], []⟩ 0 0 =
      (.err "Error: archivo de entrada invalido", ⟨[["B1", "Z"], ["_", "_"]], []⟩) :=
  C2_step_atomicity ⟨[["B1", "Z"], ["_", "_"]], []⟩ 0 0 "B1" 'B' '1'
    "Error: archivo de entrada invalido" [] (by decide) (by decide) (by decide)
    (Or.inl rfl) (by decide) (by decide) (by decide)

/-- C2 counterexample: on `stCadenaDoble` the chain errs at its fourth step,
yet `self.tablero` keeps the mutations of the three successful detonations -
the caller can observe a partially (here fully) detonated board together with
the error. -/
theorem C2_counterexample :
    (comenzar stCadenaDoble 1 1).1 = RRes.err "Error: coordenadas invalidas" ∧
    (comenzar stCadenaDoble 1 1).2.tablero ≠ stCadenaDoble.tablero := by
  decide

/-- C3 (amended): the loader accepts a board iff every token is one of the ten
literals `_`, `W`, `R`, `DU`, `DL`, `DR`, `DD`, `F1`, `F2`, `F3`, or begins
with `B`/`S` followed by a digit 1-9 with arbitrary trailing characters.  In
particular `F4`-`F9` are rejected and `B1x` is accepted, against the original
claim (see `C3_counterexample`); a bomb payload `0` is rejected as claimed. -/
theorem C3_validator_iff (t : Tablero) :
    es_tablero_valido t = true ↔ ∀ fila ∈ t, ∀ s ∈ fila, tokenAceptado s := by
  unfold es_tablero_valido
  simp only [List.all_eq_true, es_casilla_valida_iff]

/-- C3 counterexample: `F4` is in the claim's enumerated token set but the
validator rejects it; `B1x` is outside the claim's set (trailing character)
but the validator accepts it. -/
theorem C3_counterexample :
    es_tablero_valido [["F4"]] = false ∧ es_tablero_valido [["B1x"]] = true := by
  decide

theorem C3_witness : tokenAceptado "B2" :=
  ((C3_validator_iff [["B2"]]).mp (by decide)) ["B2"] (by simp) "B2" (by simp)

/-- C4: when a ray classifies a deflector cell `D<dir>`, it recurses from the
current point stepped once in the new direction `<dir>` (the old direction and
its `prox` are discarded) with the range reduced by exactly 1, and a second
character other than U, R, L, D - or a missing one - yields the InvalidInput
error "Error: archivo de entrada invalido". -/
theorem C4_deflector (n : Nat) (punto prox : Punto) (tipo : Char)
    (s : RayState) (direccion : Char)
    (hprox : calcular_prox direccion punto.x punto.y = RRes.ok prox)
    (hx : punto.x < s.tablero.length) (hy : punto.y < s.tablero.length)
    (cell : String) (hcell : getCell s.tablero punto.x punto.y = some cell)
    (hD : cell.data.get? 0 = some 'D') :
    (cell.data.get? 1 = some 'U' → explosion_dirigida (n + 1) punto tipo s direccion =
      explosion_dirigida n ⟨punto.x, wrapping_sub1 punto.y⟩ tipo s 'U') ∧
    (cell.data.get? 1 = some 'R' → explosion_dirigida (n + 1) punto tipo s direccion =
      explosion_dirigida n ⟨punto.x + 1, punto.y⟩ tipo s 'R') ∧
    (cell.data.get? 1 = some 'L' → explosion_dirigida (n + 1) punto tipo s direccion =
      explosion_dirigida n ⟨wrapping_sub1 punto.x, punto.y⟩ tipo s 'L') ∧
    (cell.data.get? 1 = some 'D' → explosion_dirigida (n + 1) punto tipo s direccion =
      explosion_dirigida n ⟨punto.x, punto.y + 1⟩ tipo s 'D') ∧
    (∀ c, cell.data.get? 1 = some c → c ≠ 'U' → c ≠ 'R' → c ≠ 'L' → c ≠ 'D' →
      explosion_dirigida (n + 1) punto tipo s direccion =
        (s, .err "Error: archivo de entrada invalido")) ∧
    (cell.data.get? 1 = none → explosion_dirigida (n + 1) punto tipo s direccion =
      (s, .err "Error: archivo de entrada invalido")) := by
  have hstep : explosion_dirigida (n + 1) punto tipo s direccion =
      (match cell.data.get? 1 with
       | some 'U' => explosion_dirigida n ⟨punto.x, wrapping_sub1 punto.y⟩ tipo s 'U'
       | some 'R' => explosion_dirigida n ⟨punto.x + 1, punto.y⟩ tipo s 'R'
       | some 'L' => explosion_dirigida n ⟨wrapping_sub1 punto.x, punto.y⟩ tipo s 'L'
       | some 'D' => explosion_dirigida n ⟨punto.x, punto.y + 1⟩ tipo s 'D'
       | _ => (s, .err "Error: archivo de entrada invalido")) := by
    rw [explosion_dirigida_step n punto prox tipo s direccion hprox hx hy cell hcell, hD]
    rfl
  refine ⟨?_, ?_, ?_, ?_, ?_, ?_⟩
  · intro h1; rw [hstep, h1]; rfl
  · intro h1; rw [hstep, h1]; rfl
  · intro h1; rw [hstep, h1]; rfl
  · intro h1; rw [hstep, h1]; rfl
  · intro c h1 hU hR hL hD2
    rw [hstep, h1]
    split
    · rename_i heq; injection heq with h; exact absurd h hU
    · rename_i heq; injection heq with h; exact absurd h hR
    · rename_i heq; injection heq with h; exact absurd h hL
    · rename_i heq; injection heq with h; exact absurd h hD2
    · rfl
  · intro h1; rw [hstep, h1]

theorem C4_witness :
    explosion_dirigida 2 ⟨0, 0⟩ 'B' ⟨[["DU", "_"], ["_", "_"]], [], []⟩ 'R' =
      explosion_dirigida 1 ⟨0, wrapping_sub1 0⟩ 'B' ⟨[["DU", "_"], ["_", "_"]], [], []⟩ 'U' :=
  (C4_deflector 1 ⟨0, 0⟩ ⟨1, 0⟩ 'B' ⟨[["DU", "_"], ["_", "_"]], [], []⟩ 'R'
    (by decide) (by decide) (by decide) "DU" (by decide) (by decide)).1 (by decide)

/-- C6 (amended): a wall cell `W` terminates any ray successfully; a rock cell
`R` terminates a normal bomb's ray successfully, while a pass-through bomb's
ray continues through with range reduced by 1 toward the coordinate that
`calcular_prox` computes, leaving the rock unchanged - and that coordinate is
the adjacent cell for directions U, D, R but the SAME point for direction L
(the source's `calcular_prox` returns (x, y) for `'L'`), so a leftward
pass-through ray stalls on the rock until its range is exhausted. -/
theorem C6_wall_rock (n : Nat) (punto prox : Punto) (tipo : Char)
    (s : RayState) (direccion : Char)
    (hprox : calcular_prox direccion punto.x punto.y = RRes.ok prox)
    (hx : punto.x < s.tablero.length) (hy : punto.y < s.tablero.length)
    (cell : String) (hcell : getCell s.tablero punto.x punto.y = some cell) :
    (cell.data.get? 0 = some 'W' →
      explosion_dirigida (n + 1) punto tipo s direccion = (s, .ok ())) ∧
    (cell.data.get? 0 = some 'R' → tipo ≠ 'S' →
      explosion_dirigida (n + 1) punto tipo s direccion = (s, .ok ())) ∧
    (cell.data.get? 0 = some 'R' → tipo = 'S' →
      explosion_dirigida (n + 1) punto tipo s direccion =
        explosion_dirigida n ⟨prox.x, prox.y⟩ tipo s direccion) ∧
    (direccion = 'U' → prox = ⟨punto.x, wrapping_sub1 punto.y⟩) ∧
    (direccion = 'D' → prox = ⟨punto.x, punto.y + 1⟩) ∧
    (direccion = 'R' → prox = ⟨punto.x + 1, punto.y⟩) ∧
    (direccion = 'L' → prox = ⟨punto.x, punto.y⟩) := by
  have hstep := explosion_dirigida_step n punto prox tipo s direccion hprox hx hy cell hcell
  refine ⟨?_, ?_, ?_, ?_, ?_, ?_, ?_⟩
  · intro h0
    rw [hstep, h0]
    rfl
  · intro h0 hts
    rw [hstep, h0, if_neg hts]
    rfl
  · intro h0 hts
    rw [hstep, h0, if_pos hts]
    rfl
  · intro hd
    subst hd
    rw [show calcular_prox 'U' punto.x punto.y =
      RRes.ok ⟨punto.x, wrapping_sub1 punto.y⟩ from rfl] at hprox
    injection hprox with h
    exact h.symm
  · intro hd
    subst hd
    rw [show calcular_prox 'D' punto.x punto.y =
      RRes.ok ⟨punto.x, punto.y + 1⟩ from rfl] at hprox
    injection hprox with h
    exact h.symm
  · intro hd
    subst hd
    rw [show calcular_prox 'R' punto.x punto.y =
      RRes.ok ⟨punto.x + 1, punto.y⟩ from rfl] at hprox
    injection hprox with h
    exact h.symm
  · intro hd
    subst hd
    rw [show calcular_prox 'L' punto.x punto.y =
      RRes.ok ⟨punto.x, punto.y⟩ from rfl] at hprox
    injection hprox with h
    exact h.symm

/-- C6 counterexample: a leftward pass-through ray on a rock does not continue
to the next coordinate in its direction of travel (the cell to the left); the
source recurses to the same point, so the two computations differ - with
range 2 the ray stalls on the rock and never reaches the enemy at (0, 1),
whereas the claimed behavior (range 1 from the adjacent cell) damages it. -/
theorem C6_counterexample :
    explosion_dirigida 2 ⟨1, 1⟩ 'S'
        ⟨[["_", "_", "_"], ["F1", "R", "S2"], ["_", "_", "_"]], [], []⟩ 'L' ≠
      explosion_dirigida 1 ⟨0, 1⟩ 'S'
        ⟨[["_", "_", "_"], ["F1", "R", "S2"], ["_", "_", "_"]], [], []⟩ 'L' := by
  decide

theorem C6_witness :
    explosion_dirigida 2 ⟨1, 1⟩ 'S'
        ⟨[["_", "_", "_"], ["F1", "R", "S2"], ["_", "_", "_"]], [], []⟩ 'L' =
      explosion_dirigida 1 ⟨1, 1⟩ 'S'
        ⟨[["_", "_", "_"], ["F1", "R", "S2"], ["_", "_", "_"]], [], []⟩ 'L' :=
  (C6_wall_rock 1 ⟨1, 1⟩ ⟨1, 1⟩ 'S'
    ⟨[["_", "_", "_"], ["F1", "R", "S2"], ["_", "_", "_"]], [], []⟩ 'L'
    (by decide) (by decide) (by decide) "R" (by decide)).2.2.1 (by decide) rfl

/-- C5: the enemy-damage rule.  A coordinate already in the ray's affected set
is left untouched (idempotent within a branch); otherwise it is added and the
cell is rewritten to `"_"` for health 1 and to `F<health-1>` for health
greater than 1; a missing or non-digit health payload yields the InvalidInput
error (with the coordinate nevertheless inserted first, as in the source).
The final conjunct shows the per-branch affected sets of the orchestrator: on
the board with `B3` at (1, 1), deflectors `DD` at (2, 1) and `DL` at (2, 2),
the enemy `F2` at (1, 2) is hit by both the right ray (deflected twice) and
the down ray of the same detonation and dies, one health point per branch. -/
theorem C5_enemy_rule :
    (∀ (en : List Punto) (p : Punto) (t : Tablero) (o : Option Char),
      p ∈ en → afectar_enemigo en p t o = (en, t, .ok ())) ∧
    (∀ (en : List Punto) (p : Punto) (t : Tablero),
      p ∉ en → afectar_enemigo en p t (some '1') =
        (p :: en, setCell t p.x p.y "_", .ok ())) ∧
    (∀ (en : List Punto) (p : Punto) (t : Tablero) (c : Char),
      p ∉ en → c.isDigit = true → 2 ≤ c.toNat - '0'.toNat →
      afectar_enemigo en p t (some c) =
        (p :: en, setCell t p.x p.y ("F" ++ toString (c.toNat - '0'.toNat - 1)), .ok ())) ∧
    (∀ (en : List Punto) (p : Punto) (t : Tablero),
      p ∉ en → afectar_enemigo en p t none =
        (p :: en, t, .err "Error: archivo de entrada invalido")) ∧
    (∀ (en : List Punto) (p : Punto) (t : Tablero) (c : Char),
      p ∉ en → c.isDigit = false →
      afectar_enemigo en p t (some c) =
        (p :: en, t, .err "Error: archivo de entrada invalido")) ∧
    getCell (comenzar ⟨[["_", "_", "_"], ["_", "B3", "DD"], ["_", "F2", "DL"]], []⟩ 1 1).2.tablero
      1 2 = some "_" := by
  refine ⟨?_, ?_, ?_, ?_, ?_, ?_⟩
  · intro en p t o hmem
    unfold afectar_enemigo
    rw [if_pos hmem]
  · intro en p t hmem
    unfold afectar_enemigo
    rw [if_neg hmem]
    rfl
  · intro en p t c hmem hd h2
    unfold afectar_enemigo
    rw [if_neg hmem]
    simp only [Option.getD_some]
    rw [if_pos hd, if_neg (by omega), if_neg (by omega)]
  · intro en p t hmem
    unfold afectar_enemigo
    rw [if_neg hmem]
    rfl
  · intro en p t c hmem hd
    unfold afectar_enemigo
    rw [if_neg hmem]
    simp only [Option.getD_some]
    rw [if_neg (by simp [hd])]
  · decide

theorem C5_witness :
    afectar_enemigo [] ⟨0, 0⟩ [["F1"]] (some '1') = ([⟨0, 0⟩], [["_"]], .ok ()) := by
  rw [C5_enemy_rule.2.1 [] ⟨0, 0⟩ [["F1"]] (by decide)]
  decide

/-- C7: a ray call whose coordinate is outside [0, N) in either axis returns
`Ok` with the state untouched, for every range, bomb kind and direction; in
particular the coordinate produced by `0usize - 1` with wraparound, namely
`2 ^ 64 - 1`, is beyond every real board length, so the ray dissipates there
instead of wrapping into a valid high-index cell. -/
theorem C7_boundary :
    (∀ (alcance : Nat) (punto : Punto) (tipo : Char) (s : RayState) (direccion : Char),
      punto.x ≥ s.tablero.length ∨ punto.y ≥ s.tablero.length →
      explosion_dirigida alcance punto tipo s direccion = (s, .ok ())) ∧
    (∀ (alcance y2 : Nat) (tipo : Char) (s : RayState) (direccion : Char),
      s.tablero.length < 2 ^ 64 →
      explosion_dirigida alcance ⟨wrapping_sub1 0, y2⟩ tipo s direccion = (s, .ok ())) ∧
    (∀ (alcance x2 : Nat) (tipo : Char) (s : RayState) (direccion : Char),
      s.tablero.length < 2 ^ 64 →
      explosion_dirigida alcance ⟨x2, wrapping_sub1 0⟩ tipo s direccion = (s, .ok ())) := by
  have hw : wrapping_sub1 0 = 2 ^ 64 - 1 := by norm_num [wrapping_sub1]
  refine ⟨explosion_dirigida_oob, ?_, ?_⟩
  · intro alcance y2 tipo s direccion hlen
    refine explosion_dirigida_oob _ _ _ _ _ (Or.inl ?_)
    show wrapping_sub1 0 ≥ s.tablero.length
    rw [hw]
    omega
  · intro alcance x2 tipo s direccion hlen
    refine explosion_dirigida_oob _ _ _ _ _ (Or.inr ?_)
    show wrapping_sub1 0 ≥ s.tablero.length
    rw [hw]
    omega

theorem C7_witness :
    explosion_dirigida 5 ⟨wrapping_sub1 0, 0⟩ 'B' ⟨[["_"]], [], []⟩ 'L' =
      (⟨[["_"]], [], []⟩, .ok ()) :=
  C7_boundary.2.1 5 0 'B' ⟨[["_"]], [], []⟩ 'L' (by decide)

/-- C8 (amended): `comenzar` validates only that the target cell holds a bomb
token: an in-bounds cell whose token is shorter than 2 characters or does not
start with `B`/`S` yields the InvalidCoordinates error with the state
untouched; but an out-of-bounds target is indexed before any check, a Rust
panic, not an error (bounds are checked by the CLI caller, not here). -/
theorem C8_target_validation :
    (∀ (st : Bomberman) (x y : Nat), getCell st.tablero x y = none →
      comenzar st x y = (.panic, st)) ∧
    (∀ (st : Bomberman) (x y : Nat) (v : String), getCell st.tablero x y = some v →
      v.length < 2 → comenzar st x y = (.err "Error: coordenadas invalidas", st)) ∧
    (∀ (st : Bomberman) (x y : Nat) (v : String), getCell st.tablero x y = some v →
      ¬ v.length < 2 → v.data.get? 0 ≠ some 'B' → v.data.get? 0 ≠ some 'S' →
      comenzar st x y = (.err "Error: coordenadas invalidas", st)) := by
  refine ⟨?_, ?_, ?_⟩
  · intro st x y h
    rw [comenzar_eq]
    split
    · rfl
    · rename_i valor hval
      rw [h] at hval
      exact Option.noConfusion hval
  · intro st x y v hv hlen
    rw [comenzar_eq]
    split
    · rename_i hn
      rw [hv] at hn
      exact Option.noConfusion hn
    · rename_i valor hval
      rw [hv] at hval
      injection hval with h2
      subst h2
      rw [if_pos hlen]
  · intro st x y v hv hlen hB hS
    rw [comenzar_eq]
    split
    · rename_i hn
      rw [hv] at hn
      exact Option.noConfusion hn
    · rename_i valor hval
      rw [hv] at hval
      injection hval with h2
      subst h2
      rw [if_neg hlen, if_pos ⟨hB, hS⟩]

/-- C8 counterexample: with a 1-by-1 board, target (1, 0) is out of bounds;
`comenzar` indexes `self.tablero[y][x]` before any bounds check, so the run
panics instead of returning the InvalidCoordinates error. -/
theorem C8_counterexample :
    (comenzar ⟨[["_"]], []⟩ 1 0).1 = RRes.panic ∧
    (comenzar ⟨[["_"]], []⟩ 1 0).1 ≠ RRes.err "Error: coordenadas invalidas" := by
  decide

theorem C8_witness :
    comenzar ⟨[["W", "_"], ["_", "_"]], []⟩ 0 0 =
      (.err "Error: coordenadas invalidas", ⟨[["W", "_"], ["_", "_"]], []⟩) :=
  C8_target_validation.2.1 ⟨[["W", "_"], ["_", "_"]], []⟩ 0 0 "W" (by decide) (by decide)

/-- C9: `explosion_dirigida` returns immediately when the range is 0, and a
fuel of `alcance` propagation steps is always enough: the fuel-indexed variant
never runs out when the fuel at least matches the remaining range, because
every recursive call - through empty cells, deflectors, rocks and enemies -
decreases the range by exactly 1 together with the fuel.  Termination of a
single ray within `initial_range` steps follows, deflector cycles included. -/
theorem C9_range_bound :
    (∀ (punto : Punto) (tipo : Char) (s : RayState) (direccion : Char),
      explosion_dirigida 0 punto tipo s direccion = (s, .ok ())) ∧
    (∀ (alcance fuel : Nat) (punto : Punto) (tipo : Char) (s : RayState) (direccion : Char),
      alcance ≤ fuel →
      explosion_dirigidaF fuel alcance punto tipo s direccion =
        some (explosion_dirigida alcance punto tipo s direccion)) := by
  constructor
  · intro punto tipo s direccion
    rfl
  · intro alcance
    induction alcance with
    | zero =>
      intro fuel punto tipo s direccion h
      cases fuel with
      | zero => rfl
      | succ m => rfl
    | succ n ih =>
      intro fuel punto tipo s direccion h
      cases fuel with
      | zero => exact absurd h (by omega)
      | succ m =>
        have hm : n ≤ m := Nat.le_of_succ_le_succ h
        by_cases hO : punto.x ≥ s.tablero.length ∨ punto.y ≥ s.tablero.length
        · simp only [explosion_dirigidaF, explosion_dirigida, if_pos hO]
        · push_neg at hO
          cases hcp : calcular_prox direccion punto.x punto.y with
          | err e =>
            simp only [explosion_dirigidaF, explosion_dirigida,
              if_neg (by omega : ¬(punto.x ≥ s.tablero.length ∨ punto.y ≥ s.tablero.length)),
              hcp]
          | panic =>
            simp only [explosion_dirigidaF, explosion_dirigida,
              if_neg (by omega : ¬(punto.x ≥ s.tablero.length ∨ punto.y ≥ s.tablero.length)),
              hcp]
          | ok prox =>
            cases hcg : getCell s.tablero punto.x punto.y with
            | none =>
              simp only [explosion_dirigidaF, explosion_dirigida,
                if_neg (by omega : ¬(punto.x ≥ s.tablero.length ∨ punto.y ≥ s.tablero.length)),
                hcp, hcg]
            | some cell =>
              rw [explosion_dirigidaF_step m n punto prox tipo s direccion hcp hO.1 hO.2
                  cell hcg,
                explosion_dirigida_step n punto prox tipo s direccion hcp hO.1 hO.2
                  cell hcg]
              split
              · exact ih m ⟨prox.x, prox.y⟩ tipo s direccion hm
              · split
                · exact ih m ⟨punto.x, wrapping_sub1 punto.y⟩ tipo s 'U' hm
                · exact ih m ⟨punto.x + 1, punto.y⟩ tipo s 'R' hm
                · exact ih m ⟨wrapping_sub1 punto.x, punto.y⟩ tipo s 'L' hm
                · exact ih m ⟨punto.x, punto.y + 1⟩ tipo s 'D' hm
                · rfl
              · split
                · exact ih m ⟨prox.x, prox.y⟩ tipo s direccion hm
                · rfl
              · rfl
              · rfl
              · split
                · rename_i en2 tab2 val heq
                  exact ih m ⟨prox.x, prox.y⟩ tipo ⟨tab2, en2, s.pila⟩ direccion hm
                · rfl
                · rfl
              · rfl
              · rfl

theorem C9_witness :
    2 ≤ 3 ∧
    explosion_dirigidaF 3 2 ⟨0, 0⟩ 'B' ⟨[["_", "_", "_"]], [], []⟩ 'R' =
      some (explosion_dirigida 2 ⟨0, 0⟩ 'B' ⟨[["_", "_", "_"]], [], []⟩ 'R') :=
  ⟨by omega, C9_range_bound.2 2 3 ⟨0, 0⟩ 'B' ⟨[["_", "_", "_"]], [], []⟩ 'R' (by omega)⟩

/-- C10: across a whole `comenzar` run (the chain included), every cell whose
token starts with `W`, `R` or `D` keeps its exact value - a deflector hit by a
blast is never erased - and contrapositively any cell whose value changes must
have held a token starting with `B`, `S` (a detonated bomb, rewritten to `_`)
or `F` (an enemy, rewritten by the damage rule). -/
theorem C10_frame (st : Bomberman) (x y a b : Nat) (v : String)
    (hv : getCell st.tablero a b = some v) :
    ((v.data.get? 0 = some 'W' ∨ v.data.get? 0 = some 'R' ∨ v.data.get? 0 = some 'D') →
      getCell (comenzar st x y).2.tablero a b = some v) ∧
    (getCell (comenzar st x y).2.tablero a b ≠ some v →
      v.data.get? 0 = some 'B' ∨ v.data.get? 0 = some 'S' ∨ v.data.get? 0 = some 'F') := by
  constructor
  · intro hh
    have hnb : isBombStr v = false := by
      unfold isBombStr
      rcases hh with h | h | h
      all_goals rw [h]
      all_goals rfl
    have hnF : v.data.get? 0 ≠ some 'F' := by
      rcases hh with h | h | h
      all_goals rw [h]
      all_goals decide
    exact comenzar_keep (countBombs st.tablero) st rfl x y a b v hv hnb hnF
  · intro hne
    by_contra hcon
    push_neg at hcon
    obtain ⟨h1, h2, h3⟩ := hcon
    have hnb : isBombStr v = false := by
      unfold isBombStr
      cases hh : v.data.get? 0 with
      | none => rfl
      | some c =>
        split
        · rename_i heq
          exact absurd (hh.trans heq) h1
        · rename_i heq
          exact absurd (hh.trans heq) h2
        · rfl
    exact hne (comenzar_keep (countBombs st.tablero) st rfl x y a b v hv hnb h3)

theorem C10_witness :
    getCell (comenzar ⟨[["B1", "R"], ["W", "DU"]], []⟩ 0 0).2.tablero 1 0 = some "R" :=
  (C10_frame ⟨[["B1", "R"], ["W", "DU"]], []⟩ 0 0 1 0 "R" (by decide)).1
    (Or.inr (Or.inl rfl))
